import Mathlib

/-!
Verification development for the Dev-Events repository (event and booking
record managers, connection manager, and the event-creation route).

The JavaScript/TypeScript sources are shallowly embedded: strings are
modeled as Lean strings operating on their character lists, machine
integers as Nat/Int, thrown exceptions as Except values, and the mongoose
document store as explicit lists passed through the functions.  Host
behaviour that is not part of the repository code (the ECMAScript Date
parser, Math.random) is supplied as an explicit input (an Option value or
an oracle list of suffix strings), while everything the repository itself
computes is translated from the source.
-/

deriving instance DecidableEq for Except

namespace DevEvents

/-- ECMAScript white space and line terminator code points, the character
class used by String.prototype.trim and by the regex class backslash-s. -/
def isJsWs (c : Char) : Bool :=
  c.toNat = 0x9 || c.toNat = 0xA || c.toNat = 0xB || c.toNat = 0xC ||
  c.toNat = 0xD || c.toNat = 0x20 || c.toNat = 0xA0 || c.toNat = 0x1680 ||
  (0x2000 ≤ c.toNat && c.toNat ≤ 0x200A) || c.toNat = 0x2028 ||
  c.toNat = 0x2029 || c.toNat = 0x202F || c.toNat = 0x205F ||
  c.toNat = 0x3000 || c.toNat = 0xFEFF

/-- String.prototype.trim on a character list: drop white space from both
ends. -/
def jsTrimL (l : List Char) : List Char :=
  ((l.dropWhile isJsWs).reverse.dropWhile isJsWs).reverse

/-- ASCII fragment of String.prototype.toLowerCase, applied per character.
Non-ASCII case mappings do not occur in the inputs the claims are about. -/
def asciiLowerChar (c : Char) : Char :=
  if 65 ≤ c.toNat ∧ c.toNat ≤ 90 then Char.ofNat (c.toNat + 32) else c

/-- toLowerCase on a character list. -/
def asciiLowerL (l : List Char) : List Char :=
  l.map asciiLowerChar

/-- The regex character class for a decimal digit. -/
def isDigitC (c : Char) : Bool :=
  48 ≤ c.toNat && c.toNat ≤ 57

/-- The decimal digit character for a value below ten. -/
def digitChar10 (n : Nat) : Char :=
  match n with
  | 0 => '0' | 1 => '1' | 2 => '2' | 3 => '3' | 4 => '4'
  | 5 => '5' | 6 => '6' | 7 => '7' | 8 => '8' | _ => '9'

/-- Numeric value of a digit character, as JavaScript Number would read it. -/
def digitValC (c : Char) : Nat :=
  c.toNat - 48

/-- Maximal run of leading digit characters together with the rest of the
input, the way an anchored greedy digit group matches. -/
def takeDigits : List Char → List Char × List Char
  | [] => ([], [])
  | c :: cs =>
    if isDigitC c then
      let p := takeDigits cs
      (c :: p.1, p.2)
    else ([], c :: cs)

/-- Value of a digit string, as JavaScript Number reads a captured group. -/
def digitsToNat (ds : List Char) : Nat :=
  ds.foldl (fun a c => 10 * a + digitValC c) 0

/-- Two digit zero padded rendering, as toString followed by
padStart 2 with a zero produces for values below one hundred. -/
def pad2L (n : Nat) : List Char :=
  [digitChar10 (n / 10), digitChar10 (n % 10)]

/-- Unpadded decimal rendering of an hour below one hundred, used to build
canonical inputs for the time normalizers. -/
def mkHourL (n : Nat) : List Char :=
  if n < 10 then [digitChar10 n] else pad2L n

/-- General decimal digit list of a natural number. -/
def natDigs (n : Nat) : List Char :=
  if _h : n < 10 then [digitChar10 n]
  else natDigs (n / 10) ++ [digitChar10 (n % 10)]
termination_by n
decreasing_by
  exact Nat.div_lt_self (by omega) (by omega)

/-- The 24 hour HH:MM string both time normalizers emit. -/
def render24 (h m : Nat) : String :=
  String.mk (pad2L h ++ ':' :: pad2L m)

/-- Lower case letter or digit, the slug output alphabet. -/
def isLowerAlnum (c : Char) : Bool :=
  (97 ≤ c.toNat && c.toNat ≤ 122) || (48 ≤ c.toNat && c.toNat ≤ 57)

/-- Collapse every run of repeated hyphens to a single hyphen. -/
def collapseDashes : List Char → List Char
  | [] => []
  | [c] => [c]
  | c :: d :: t =>
    if c = '-' ∧ d = '-' then collapseDashes (d :: t)
    else c :: collapseDashes (d :: t)

/-- Drop the maximal trailing run of hyphens. -/
def dropEndDash : List Char → List Char
  | [] => []
  | c :: cs =>
    match dropEndDash cs with
    | [] => if c = '-' then [] else [c]
    | r => c :: r

/-- Replace every maximal run of white space by a single hyphen, the way
the global regex replacing backslash-s runs does. -/
def wsRuns : List Char → List Char
  | [] => []
  | [c] => if isJsWs c then ['-'] else [c]
  | c :: d :: t =>
    if isJsWs c then
      if isJsWs d then wsRuns (d :: t) else '-' :: wsRuns (d :: t)
    else c :: wsRuns (d :: t)

/-- Recognizer for the slug shape: one or more blocks of lower case
alphanumerics separated by single hyphens.  The Bool argument records
whether the previous character was a hyphen (so another hyphen or the end
of input is not allowed). -/
def slugRun : Bool → List Char → Bool
  | afterDash, [] => !afterDash
  | afterDash, c :: cs =>
    if isLowerAlnum c then slugRun false cs
    else if c = '-' && !afterDash then slugRun true cs
    else false

/-- Whole string slug recognizer for the anchored regex of lower case
alphanumeric blocks separated by single hyphens. -/
def slugAccepts (cs : List Char) : Bool :=
  match cs with
  | [] => false
  | c :: cs' => isLowerAlnum c && slugRun false cs'

namespace EventModel

/-- Slug utility of src/database/event.model.ts: trim, lower case, replace
every run of characters outside lower case alphanumerics by one hyphen,
then strip leading and trailing hyphens. -/
def slugifyL (l : List Char) : List Char :=
  dropEndDash
    (((collapseDashes
        ((asciiLowerL (jsTrimL l)).map
          (fun c => if isLowerAlnum c then c else '-'))).dropWhile
      (fun c => c == '-')))

/-- String face of the slug utility of src/database/event.model.ts. -/
def slugify (s : String) : String :=
  String.mk (slugifyL s.toList)

end EventModel

namespace Part004

/-- Slug helper of src/unnamed/part_003 and part_004: lower case, trim,
remove characters that are not lower case alphanumerics, white space or
hyphens, replace white space runs by hyphens, collapse repeated hyphens.
No trimming of boundary hyphens is performed. -/
def generateSlug (s : String) : String :=
  String.mk
    (collapseDashes
      (wsRuns
        ((jsTrimL (asciiLowerL s.toList)).filter
          (fun c => isLowerAlnum c || isJsWs c || c == '-'))))

end Part004

/-- No two adjacent hyphens anywhere in the list. -/
def noDD : List Char → Bool
  | [] => true
  | [_] => true
  | c :: d :: t => !(c == '-' && d == '-') && noDD (d :: t)

/-- The first character, if any, is not a hyphen. -/
def headNotDash : List Char → Bool
  | [] => true
  | c :: _ => c != '-'

/-- The last character, if any, is not a hyphen. -/
def lastNotDash : List Char → Bool
  | [] => true
  | [c] => c != '-'
  | _ :: d :: t => lastNotDash (d :: t)

/-- The slug pipeline exactly as the specification words it (for the
refinement comparison only): lowercase, trim, strip characters outside
lower case alphanumerics, white space and hyphens, collapse white space
runs to single hyphens, collapse repeated hyphens, and trim leading and
trailing hyphens. -/
def specSlugPipeline (s : String) : String :=
  String.mk
    (dropEndDash
      ((collapseDashes
        (wsRuns
          ((jsTrimL (asciiLowerL s.toList)).filter
            (fun c => isLowerAlnum c || isJsWs c || c == '-')))).dropWhile
        (fun c => c == '-')))

/-- Days-to-Gregorian conversion (the civil-from-days algorithm), the
calendar arithmetic ECMAScript toISOString and the getUTC accessors
perform on the day number of a time value.  Input is days since the epoch,
output is year, month and day. -/
def civilFromDays (z0 : Int) : Int × Int × Int :=
  let z := z0 + 719468
  let era := z.fdiv 146097
  let doe := z - era * 146097
  let yoe := (doe - doe.fdiv 1460 + doe.fdiv 36524 - doe.fdiv 146096).fdiv 365
  let y := yoe + era * 400
  let doy := doe - (365 * yoe + yoe.fdiv 4 - yoe.fdiv 100)
  let mp := (5 * doy + 2).fdiv 153
  let d := doy - (153 * mp + 2).fdiv 5 + 1
  let m := if mp < 10 then mp + 3 else mp - 9
  (if m ≤ 2 then y + 1 else y, m, d)

/-- Four digit zero padded rendering of a year below ten thousand. -/
def pad4L (n : Nat) : List Char :=
  [digitChar10 (n / 1000 % 10), digitChar10 (n / 100 % 10),
   digitChar10 (n / 10 % 10), digitChar10 (n % 10)]

/-- Six digit zero padded rendering, used by the expanded year form of
toISOString. -/
def pad6L (n : Nat) : List Char :=
  [digitChar10 (n / 100000 % 10), digitChar10 (n / 10000 % 10),
   digitChar10 (n / 1000 % 10), digitChar10 (n / 100 % 10),
   digitChar10 (n / 10 % 10), digitChar10 (n % 10)]

/-- Year rendering of toISOString: four digits in the common range,
otherwise the expanded signed six digit form. -/
def isoYearL (y : Int) : List Char :=
  if 0 ≤ y ∧ y ≤ 9999 then pad4L y.toNat
  else if 9999 < y then '+' :: pad6L y.toNat
  else '-' :: pad6L (-y).toNat

/-- The date part of toISOString for a given day number since the epoch. -/
def isoDateOfDays (d : Int) : String :=
  let c := civilFromDays d
  String.mk (isoYearL c.1 ++ '-' :: pad2L c.2.1.toNat ++ '-' :: pad2L c.2.2.toNat)

namespace EventModel

/-- Error kinds of normalizeTime in src/database/event.model.ts: the
format message for input the regex rejects, the range message for an hour
above 23 or a minute above 59. -/
inductive TimeErr where
  | format
  | range
deriving DecidableEq

/-- Matcher for the anchored regex in normalizeTime of
src/database/event.model.ts: one or two digit hours, a colon, exactly two
digit minutes, and optionally a colon with exactly two digit seconds. -/
def parseHMS (cs : List Char) : Option (Nat × Nat) :=
  let p1 := takeDigits cs
  if p1.1.length = 0 ∨ 2 < p1.1.length then none
  else
    match p1.2 with
    | ':' :: r2 =>
      let p2 := takeDigits r2
      if p2.1.length ≠ 2 then none
      else
        match p2.2 with
        | [] => some (digitsToNat p1.1, digitsToNat p2.1)
        | ':' :: r4 =>
          let p3 := takeDigits r4
          if p3.1.length = 2 ∧ p3.2 = [] then
            some (digitsToNat p1.1, digitsToNat p2.1)
          else none
        | _ => none
    | _ => none

/-- normalizeTime of src/database/event.model.ts: trim, match the 24 hour
pattern with optional seconds, reject out of range values, and emit the
zero padded HH:MM form.  Hours below zero cannot arise because the digits
parse into a natural number. -/
def normalizeTime (time : String) : Except TimeErr String :=
  match parseHMS (jsTrimL time.toList) with
  | none => .error .format
  | some (h, m) =>
    if 23 < h ∨ 59 < m then .error .range
    else .ok (render24 h m)

/-- Error kind of normalizeDate in src/database/event.model.ts. -/
inductive DateErr where
  | invalid
deriving DecidableEq

/-- normalizeDate of src/database/event.model.ts.  The ECMAScript Date
parser is host defined, so its outcome is the input here: none for an
unparseable string (a NaN time value), some t for a parse producing epoch
milliseconds t.  toISOString renders the UTC calendar day of t, whose day
number is the floor of t over 86400000. -/
def normalizeDate (parsed : Option Int) : Except DateErr String :=
  match parsed with
  | none => .error .invalid
  | some t => .ok (isoDateOfDays (t.fdiv 86400000))

/-- Error kind of the slug block of the pre-save hook in
src/database/event.model.ts. -/
inductive SlugErr where
  | unable
deriving DecidableEq

/-- The collision loop of the pre-save hook: while fewer than five
attempts were made, test the candidate against the slugs of the other
stored events; on collision append the next random suffix to the base and
retry.  Returns the first free candidate, or none after five colliding
attempts.  The suffixes produced by Math.random are an oracle list.  The
while condition, attempt below five, is carried as the remaining fuel
(five minus attempt), which makes the recursion structural. -/
def slugLoop (store : List String) (sfx : List String) (base : String) :
    String → Nat → Nat → Option String
  | _cand, _attempt, 0 => none
  | cand, attempt, fuel + 1 =>
    if cand ∈ store then
      slugLoop store sfx base (base ++ "-" ++ (sfx.getD attempt) "") (attempt + 1) fuel
    else some cand

/-- The slug block of the pre-save hook in src/database/event.model.ts,
for a document entering the branch (title modified or slug missing):
run the collision loop on the slugified title; if it found a free
candidate the document slug becomes that candidate, otherwise the prior
slug value is kept; afterwards a falsy slug (absent or the empty string)
raises the generation error. -/
def preSaveSlug (store : List String) (sfx : List String)
    (initSlug : Option String) (title : String) : Except SlugErr String :=
  let base := slugify title
  let slug :=
    match slugLoop store sfx base base 0 5 with
    | some c => some c
    | none => initSlug
  match slug with
  | none => .error .unable
  | some s => if s = "" then .error .unable else .ok s

end EventModel

namespace Part004

/-- Error kinds of normalizeTime in src/unnamed/part_004: the 24 hour
range message, the 12 hour range message, and the format message. -/
inductive TimeErr where
  | range24
  | range12
  | format
deriving DecidableEq

/-- Matcher for the anchored 24 hour regex of part_004: one or two digit
hours, a colon, exactly two digit minutes, end of input. -/
def parseHM (cs : List Char) : Option (Nat × Nat) :=
  let p1 := takeDigits cs
  if p1.1.length = 0 ∨ 2 < p1.1.length then none
  else
    match p1.2 with
    | ':' :: r2 =>
      let p2 := takeDigits r2
      if p2.1.length = 2 ∧ p2.2 = [] then
        some (digitsToNat p1.1, digitsToNat p2.1)
      else none
    | _ => none

/-- Matcher for the anchored 12 hour regex of part_004: one or two digit
hours, an optional colon with exactly two digit minutes, optional white
space, then am or pm (the Bool is true for pm). -/
def parse12 (cs : List Char) : Option (Nat × Nat × Bool) :=
  let p1 := takeDigits cs
  if p1.1.length = 0 ∨ 2 < p1.1.length then none
  else
    let rest :=
      match p1.2 with
      | ':' :: r2 =>
        let p2 := takeDigits r2
        if p2.1.length = 2 then some (digitsToNat p2.1, p2.2) else none
      | r => some (0, r)
    match rest with
    | none => none
    | some (m, r3) =>
      match r3.dropWhile isJsWs with
      | ['a', 'm'] => some (digitsToNat p1.1, m, false)
      | ['p', 'm'] => some (digitsToNat p1.1, m, true)
      | _ => none

/-- normalizeTime of src/unnamed/part_004: trim and lower case, try the
24 hour pattern first (rejecting hours above 23 or minutes above 59),
then the 12 hour pattern with meridiem (rejecting hours outside 1..12 or
minutes above 59, mapping 12 am to hour 0 and pm hours below 12 up by
twelve), and otherwise fail with the format error. -/
def normalizeTime (timeStr : String) : Except TimeErr String :=
  let t := asciiLowerL (jsTrimL timeStr.toList)
  match parseHM t with
  | some (h, m) =>
    if 23 < h ∨ 59 < m then .error .range24
    else .ok (render24 h m)
  | none =>
    match parse12 t with
    | some (h, m, isPm) =>
      if h < 1 ∨ 12 < h ∨ 59 < m then .error .range12
      else
        let h24 := if isPm ∧ h ≠ 12 then h + 12
                   else if ¬ isPm ∧ h = 12 then 0 else h
        .ok (render24 h24 m)
    | none => .error .format

/-- Error kind of normalizeDateToIso in src/unnamed/part_004. -/
inductive DateErr where
  | invalid
deriving DecidableEq

/-- normalizeDateToIso of src/unnamed/part_004: on a parseable date it
renders the getUTC year, month and day, the month and day zero padded to
two digits.  The Date parse outcome is again the oracle input. -/
def normalizeDateToIso (parsed : Option Int) : Except DateErr String :=
  match parsed with
  | none => .error .invalid
  | some t =>
    let c := civilFromDays (t.fdiv 86400000)
    let yl := if c.1 < 0 then '-' :: natDigs (-c.1).toNat else natDigs c.1.toNat
    .ok (String.mk (yl ++ '-' :: pad2L c.2.1.toNat ++ '-' :: pad2L c.2.2.toNat))

end Part004

namespace Booking

/-- A stored booking record: the referenced event id and the normalized
email. -/
structure BookingRec where
  eventId : Nat
  email : String
deriving DecidableEq

/-- Error kinds of the booking pre-save hook. -/
inductive BookingErr where
  | invalidEmail
  | missingEvent
deriving DecidableEq

/-- The email regex shared by every booking revision: one or more
characters that are neither white space nor the at sign, an at sign, the
same class again, a literal dot, and the class once more.  The dot may be
any dot of the domain part that is neither its first nor its last
character. -/
def isValidEmail (email : String) : Bool :=
  let cs := email.toList
  let ok := fun c => !isJsWs c && c != '@'
  match cs.splitOn '@' with
  | [local_, rest] =>
    !local_.isEmpty && local_.all ok && !rest.isEmpty && rest.all ok &&
      ((rest.drop 1).dropLast.contains '.')
  | _ => false

/-- The mongoose schema setters on the email path: trim and lower case. -/
def normalizeEmail (email : String) : String :=
  String.mk (asciiLowerL (jsTrimL email.toList))

/-- The booking pre-save hook shared by the revisions of
src/database/booking.model.ts: re-check the email format, then confirm
the referenced event exists; no check against existing bookings is made. -/
def bookingPreSave (events : List Nat) (eventId : Nat) (email : String) :
    Except BookingErr Unit :=
  if isValidEmail email = false then .error .invalidEmail
  else if eventId ∈ events then .ok ()
  else .error .missingEvent

/-- Creating a booking: the schema setters normalize the email, the
pre-save hook validates, and on success the record is appended to the
booking collection. -/
def createBooking (events : List Nat) (bookings : List BookingRec)
    (eventId : Nat) (email : String) : Except BookingErr (List BookingRec) :=
  let e := normalizeEmail email
  match bookingPreSave events eventId e with
  | .error err => .error err
  | .ok _ => .ok (bookings ++ [⟨eventId, e⟩])

end Booking

namespace Mongo

/-- The module scoped cache of the connection manager: the established
connection and the in-flight attempt, both optional.  Connections and
attempts are identified by numbers; the outcome oracle maps an attempt to
the connection it settles with, or none when it rejects.  A settled
promise keeps its outcome, so awaiting the same attempt twice gives the
same result. -/
structure Cache where
  conn : Option Nat
  promise : Option Nat
deriving DecidableEq

end Mongo

namespace MongoLib

/-- connectToDatabase of src/lib/mongodb.ts: return the cached connection
if present; otherwise start a fresh attempt only when none is cached, then
await the cached attempt.  There is no catch around the await, so a failed
attempt stays cached and the error propagates. -/
def connectToDatabase (outcome : Nat → Option Nat) (c : Mongo.Cache)
    (fresh : Nat) : Mongo.Cache × Option Nat :=
  match c.conn with
  | some v => (c, some v)
  | none =>
    let p := c.promise.getD fresh
    match outcome p with
    | some v => ({ conn := some v, promise := some p }, some v)
    | none => ({ conn := none, promise := some p }, none)

end MongoLib

namespace Part001

/-- Connection error kinds of src/unnamed/part_001: missing connection
string, or a failed attempt (the propagated rejection). -/
inductive ConnErr where
  | noUri
  | failed
deriving DecidableEq

/-- connectToDatabase of src/unnamed/part_001: check the connection string
at call time, reuse a cached connection, reuse a cached in-flight attempt,
and on a failed await clear the cached attempt before propagating the
error so a later call starts a fresh attempt. -/
def connectToDatabase (uri : Option String) (outcome : Nat → Option Nat)
    (c : Mongo.Cache) (fresh : Nat) : Mongo.Cache × Except ConnErr Nat :=
  match uri with
  | none => (c, .error .noUri)
  | some _ =>
    match c.conn with
    | some v => (c, .ok v)
    | none =>
      let p := c.promise.getD fresh
      match outcome p with
      | some v => ({ conn := some v, promise := some p }, .ok v)
      | none => ({ conn := none, promise := none }, .error .failed)

end Part001

namespace Route

/-- Response envelope of the events route: HTTP status, the message every
response carries, the optional error field, and the optional created
event payload. -/
structure Response where
  status : Nat
  message : String
  err : Option String
  event : Option String
deriving DecidableEq

/-- Input of one POST request, with each fallible step of the handler as
an explicit outcome: the database connection, the form data read, the
entries conversion guarded by the inner try, the presence of the image
file, the upload to the asset host, and the model create call (whose
error covers every validation failure the pre-save hook raises). -/
structure Input where
  connect : Except String Unit
  formData : Except String Unit
  entriesOk : Bool
  hasImage : Bool
  upload : Except String String
  create : Except String String

/-- POST of src/app/api/events/route.ts: any throw reaching the outer
catch yields 500 with the creation failed message and an error field; the
inner try around the entries conversion yields 400 with only a message;
a missing image yields 400 with only a message; success yields 201 with
the created event. -/
def POST (i : Input) : Response :=
  match i.connect with
  | .error e => ⟨500, "Event Creation Failed", some e, none⟩
  | .ok _ =>
    match i.formData with
    | .error e => ⟨500, "Event Creation Failed", some e, none⟩
    | .ok _ =>
      if i.entriesOk = false then ⟨400, "Invalid JSON data format", none, none⟩
      else if i.hasImage = false then ⟨400, "Image file is required", none, none⟩
      else
        match i.upload with
        | .error e => ⟨500, "Event Creation Failed", some e, none⟩
        | .ok _url =>
          match i.create with
          | .error e => ⟨500, "Event Creation Failed", some e, none⟩
          | .ok ev => ⟨201, "Event created successfully", none, some ev⟩

end Route

/-- Canonical 24 hour input string: unpadded one or two digit hour, colon,
two digit minutes. -/
def mkTime24 (hh mm : Nat) : String :=
  String.mk (mkHourL hh ++ ':' :: pad2L mm)

/-- Canonical 12 hour input string with meridiem: unpadded hour, colon,
two digit minutes, a space, then am or pm. -/
def mkTime12 (hh mm : Nat) (isPm : Bool) : String :=
  String.mk (mkHourL hh ++ ':' :: (pad2L mm ++ [' ', if isPm then 'p' else 'a', 'm']))

/-- The 24 hour value of a 12 hour clock reading: 12 am is hour 0, pm
hours other than 12 gain twelve. -/
def to24 (hh : Nat) (isPm : Bool) : Nat :=
  if isPm then (if hh = 12 then 12 else hh + 12)
  else (if hh = 12 then 0 else hh)

/-! ## Helper lemmas -/

theorem string_data_append (a b : String) : (a ++ b).data = a.data ++ b.data := rfl

theorem appendDash_ne_empty (a b : String) : a ++ "-" ++ b ≠ "" := by
  intro h
  have h2 : (a ++ "-" ++ b).data = ("" : String).data := congrArg String.data h
  rw [string_data_append, string_data_append] at h2
  simp at h2

/-! ## Claim C1 -/

/-- Claim C1 counterexample.  The booking pre-save hooks validate only the
email format and the existence of the referenced event; none of the
revisions checks for an existing booking with the same eventId, and no
unique index on eventId exists.  With event 1 present and a booking for
event 1 already stored, a second create for event 1 succeeds instead of
failing with a duplicate error, and afterwards two bookings for event 1
exist. -/
theorem C1_dup_booking_counterexample :
    Booking.createBooking [1] [⟨1, "a@b.cd"⟩] 1 ("x@y.zw") =
      .ok [⟨1, "a@b.cd"⟩, ⟨1, "x@y.zw"⟩] ∧
    (([⟨1, "a@b.cd"⟩, ⟨1, "x@y.zw"⟩] : List Booking.BookingRec).filter
      (fun b => b.eventId == 1)).length = 2 := by
  decide

/-- Claim C1, amended.  Booking creation checks the email format and the
existence of the referenced event but performs no duplicate check: for
every state of the booking collection, in particular one already holding a
booking for the same eventId, a create with a valid email against an
existing event succeeds and appends a further record, so more than one
booking per eventId can be persisted. -/
theorem C1_amended_no_duplicate_check (events : List Nat)
    (bookings : List Booking.BookingRec) (eid : Nat) (email : String)
    (hmail : Booking.isValidEmail (Booking.normalizeEmail email) = true)
    (hev : eid ∈ events) :
    Booking.createBooking events bookings eid email =
      .ok (bookings ++ [⟨eid, Booking.normalizeEmail email⟩]) := by
  simp [Booking.createBooking, Booking.bookingPreSave, hmail, hev]

/-- Witness for the amended claim C1 at a concrete input. -/
theorem C1_witness :
    Booking.createBooking [1] [⟨1, "a@b.cd"⟩] 1 ("X@Y.zw") =
      .ok [⟨1, "a@b.cd"⟩, ⟨1, "x@y.zw"⟩] :=
  (C1_amended_no_duplicate_check [1] [⟨1, "a@b.cd"⟩] 1 ("X@Y.zw")
    (by decide) (by decide)).trans (by decide)

/-! ## Claim C7 -/

/-- Claim C7.  A booking creation whose eventId does not reference an
existing event fails: nothing is persisted, and when the email is well
formed the failure is the referential-integrity error.  Conversely a
booking is only ever persisted when its referenced event exists at that
moment. -/
theorem C7_referential_integrity (events : List Nat)
    (bookings : List Booking.BookingRec) (eid : Nat) (email : String) :
    (eid ∉ events → ∀ bs, Booking.createBooking events bookings eid email ≠ .ok bs) ∧
    (Booking.isValidEmail (Booking.normalizeEmail email) = true → eid ∉ events →
      Booking.createBooking events bookings eid email = .error .missingEvent) ∧
    (∀ bs, Booking.createBooking events bookings eid email = .ok bs → eid ∈ events) := by
  refine ⟨?_, ?_, ?_⟩
  · intro hne bs
    by_cases hm : Booking.isValidEmail (Booking.normalizeEmail email) = false
    · simp [Booking.createBooking, Booking.bookingPreSave, hm]
    · simp [Booking.createBooking, Booking.bookingPreSave, hm, hne]
  · intro hm hne
    simp [Booking.createBooking, Booking.bookingPreSave, hm, hne]
  · intro bs h
    by_contra hne
    by_cases hm : Booking.isValidEmail (Booking.normalizeEmail email) = false
    · simp [Booking.createBooking, Booking.bookingPreSave, hm] at h
    · simp [Booking.createBooking, Booking.bookingPreSave, hm, hne] at h

/-- Witness for claim C7 at a concrete input: booking against event 1 in
an empty event collection fails with the referential error. -/
theorem C7_witness :
    Booking.createBooking [] [] 1 ("a@b.cd") = .error .missingEvent ∧
    (1 : Nat) ∉ ([] : List Nat) :=
  ⟨(C7_referential_integrity [] [] 1 ("a@b.cd")).2.1 (by decide) (by decide),
   by decide⟩

/-! ## Claim C3 -/

/-- Claim C3 counterexample.  In connectToDatabase of src/lib/mongodb.ts
there is no catch around the awaited attempt, so after a failed first call
the rejected attempt stays cached: the second call awaits attempt 1 again
and fails, although its fresh attempt 2 would succeed — the cached attempt
is not cleared and no fresh connection attempt is started.  The part_001
revision, by contrast, clears the cache and succeeds on the retry. -/
theorem C3_no_retry_counterexample :
    MongoLib.connectToDatabase (fun p => if p = 1 then none else some 42)
      ((MongoLib.connectToDatabase (fun p => if p = 1 then none else some 42)
        ⟨none, none⟩ 1).1) 2 = (⟨none, some 1⟩, none) ∧
    Part001.connectToDatabase (some ("u")) (fun p => if p = 1 then none else some 42)
      ((Part001.connectToDatabase (some ("u")) (fun p => if p = 1 then none else some 42)
        ⟨none, none⟩ 1).1) 2 = (⟨some 42, some 2⟩, .ok 42) := by
  decide

/-- Claim C3, amended.  Both connection managers cache a successful
connection and return it on every later call without a new attempt, and
both await a cached in-flight attempt instead of a fresh one.  On failure
they diverge: the part_001 revision clears the cached attempt so a later
call starts fresh, while the src/lib/mongodb.ts revision keeps the failed
attempt cached, so later calls keep awaiting it. -/
theorem C3_amended_connection_cache (outcome : Nat → Option Nat)
    (fresh v p : Nat) (u : String) (pr : Option Nat) :
    (MongoLib.connectToDatabase outcome ⟨some v, pr⟩ fresh = (⟨some v, pr⟩, some v)) ∧
    (Part001.connectToDatabase (some u) outcome ⟨some v, pr⟩ fresh = (⟨some v, pr⟩, .ok v)) ∧
    (outcome fresh = some v →
      MongoLib.connectToDatabase outcome ⟨none, none⟩ fresh = (⟨some v, some fresh⟩, some v)) ∧
    (outcome fresh = some v →
      Part001.connectToDatabase (some u) outcome ⟨none, none⟩ fresh =
        (⟨some v, some fresh⟩, .ok v)) ∧
    (outcome fresh = none →
      MongoLib.connectToDatabase outcome ⟨none, none⟩ fresh = (⟨none, some fresh⟩, none)) ∧
    (outcome fresh = none →
      Part001.connectToDatabase (some u) outcome ⟨none, none⟩ fresh =
        (⟨none, none⟩, .error .failed)) ∧
    (∀ fresh', MongoLib.connectToDatabase outcome ⟨none, some p⟩ fresh' =
      MongoLib.connectToDatabase outcome ⟨none, some p⟩ p) ∧
    (∀ fresh', Part001.connectToDatabase (some u) outcome ⟨none, some p⟩ fresh' =
      Part001.connectToDatabase (some u) outcome ⟨none, some p⟩ p) := by
  refine ⟨?_, ?_, ?_, ?_, ?_, ?_, ?_, ?_⟩
  · simp [MongoLib.connectToDatabase]
  · simp [Part001.connectToDatabase]
  · intro h; simp [MongoLib.connectToDatabase, h]
  · intro h; simp [Part001.connectToDatabase, h]
  · intro h; simp [MongoLib.connectToDatabase, h]
  · intro h; simp [Part001.connectToDatabase, h]
  · intro fresh'; simp [MongoLib.connectToDatabase]
  · intro fresh'; simp [Part001.connectToDatabase]

/-- Witness for the amended claim C3 at concrete inputs. -/
theorem C3_witness :
    MongoLib.connectToDatabase (fun q => if q = 1 then none else some 7)
      ⟨none, none⟩ 2 = (⟨some 7, some 2⟩, some 7) ∧
    Part001.connectToDatabase (some ("u")) (fun q => if q = 1 then none else some 7)
      ⟨none, none⟩ 1 = (⟨none, none⟩, .error .failed) :=
  ⟨(C3_amended_connection_cache (fun q => if q = 1 then none else some 7)
      2 7 0 ("u") none).2.2.1 (by decide),
   (C3_amended_connection_cache (fun q => if q = 1 then none else some 7)
      1 7 0 ("u") none).2.2.2.2.2.1 (by decide)⟩

/-! ## Claim C9 -/

/-- Claim C9.  In the event model revision with the retry loop, a new
event whose title slugifies to the empty string can never be persisted:
the loop finds the empty candidate free (no event in a store reachable by
this hook carries the empty slug), assigns it, and the final falsy check
treats the empty slug as absent and raises the generation error, even
though no collision occurred. -/
theorem C9_empty_slug_always_errors (store sfx : List String)
    (init : Option String) (title : String)
    (h : EventModel.slugify title = "") (hs : ("" : String) ∉ store) :
    EventModel.preSaveSlug store sfx init title = .error .unable := by
  simp [EventModel.preSaveSlug, EventModel.slugLoop, h, hs]

/-- Witness for claim C9 at a concrete input: a punctuation-only title in
an empty store. -/
theorem C9_witness :
    EventModel.preSaveSlug [] [] none ("!!!") = .error .unable ∧
    EventModel.slugify ("!!!") = "" :=
  ⟨C9_empty_slug_always_errors [] [] none ("!!!") (by decide) (by decide),
   by decide⟩

/-! ## Claim C5 -/

/-- Claim C5 counterexample.  With store slugs t, t-a, t-b, t-c, t-d and
random suffixes a, b, c, d, e, saving a document whose title slugifies to
t sees every one of its five checked candidates collide; yet because the
document already carries the slug old (the update path after a title
change), the hook does not fail with the slug generation error — it keeps
the stale slug and the save proceeds. -/
theorem C5_update_keeps_old_slug_counterexample :
    EventModel.preSaveSlug ["t", "t-a", "t-b", "t-c", "t-d"]
      ["a", "b", "c", "d", "e"] (some ("old")) ("t") = .ok ("old") := by
  decide

/-- Claim C5, amended.  On collision the hook appends the next random
suffix (whatever Math.random base 36 sliced to at most six characters
produced) and retries, checking five candidates in all; a free candidate
is taken as the slug.  When every checked candidate collides the save
fails with the slug generation error only if the document has no prior
truthy slug; a document that already carries a non-empty slug keeps it and
the save succeeds. -/
theorem C5_amended_slug_retry (store sfx : List String) (title s : String) :
    (EventModel.slugify title ≠ "" → EventModel.slugify title ∉ store →
      ∀ init, EventModel.preSaveSlug store sfx init title = .ok (EventModel.slugify title)) ∧
    (EventModel.slugify title ∈ store →
      EventModel.slugify title ++ "-" ++ (sfx.getD 0) "" ∉ store →
      ∀ init, EventModel.preSaveSlug store sfx init title =
        .ok (EventModel.slugify title ++ "-" ++ (sfx.getD 0) "")) ∧
    (EventModel.slugify title ∈ store →
      EventModel.slugify title ++ "-" ++ (sfx.getD 0) "" ∈ store →
      EventModel.slugify title ++ "-" ++ (sfx.getD 1) "" ∈ store →
      EventModel.slugify title ++ "-" ++ (sfx.getD 2) "" ∈ store →
      EventModel.slugify title ++ "-" ++ (sfx.getD 3) "" ∈ store →
      EventModel.preSaveSlug store sfx none title = .error .unable ∧
      (s ≠ "" → EventModel.preSaveSlug store sfx (some s) title = .ok s)) := by
  refine ⟨?_, ?_, ?_⟩
  · intro hne hfree init
    simp [EventModel.preSaveSlug, EventModel.slugLoop, hfree, hne]
  · intro h0 hfree init
    simp only [List.getD_eq_getElem?_getD] at hfree
    simp [EventModel.preSaveSlug, EventModel.slugLoop, h0, hfree,
      appendDash_ne_empty]
  · intro h0 h1 h2 h3 h4
    simp only [List.getD_eq_getElem?_getD] at h1 h2 h3 h4
    constructor
    · simp [EventModel.preSaveSlug, EventModel.slugLoop, h0, h1, h2, h3, h4]
    · intro hs
      simp [EventModel.preSaveSlug, EventModel.slugLoop, h0, h1, h2, h3, h4, hs]

/-- Witness for the amended claim C5 at concrete inputs. -/
theorem C5_witness :
    EventModel.preSaveSlug ["t"] ["a", "b", "c", "d", "e"] none ("t") = .ok ("t-a") ∧
    EventModel.preSaveSlug ["t", "t-a", "t-b", "t-c", "t-d"]
      ["a", "b", "c", "d", "e"] none ("t") = .error .unable :=
  ⟨((C5_amended_slug_retry ["t"] ["a", "b", "c", "d", "e"] ("t") ("x")).2.1
      (by decide) (by decide) none).trans (by decide),
   ((C5_amended_slug_retry ["t", "t-a", "t-b", "t-c", "t-d"]
      ["a", "b", "c", "d", "e"] ("t") ("x")).2.2
      (by decide) (by decide) (by decide) (by decide) (by decide)).1⟩

/-! ## Claim C8 -/

/-- Claim C8 counterexample.  A request whose model create call fails with
the time range validation error — a client-side validation failure in the
sense of the claim — receives status 500, not 400; and the 400 response
for a missing image carries no error field, although the claim says every
failure response includes one. -/
theorem C8_status_counterexample :
    Route.POST ⟨.ok (), .ok (), true, true, .ok ("url"),
        .error ("Invalid time range for Event.time")⟩ =
      ⟨500, "Event Creation Failed", some ("Invalid time range for Event.time"), none⟩ ∧
    (Route.POST ⟨.ok (), .ok (), true, false, .ok ("url"), .ok ("ev")⟩).status = 400 ∧
    (Route.POST ⟨.ok (), .ok (), true, false, .ok ("url"), .ok ("ev")⟩).err = none := by
  decide

/-- Claim C8, amended.  The handler returns 201 with a message and the
created event on success; 400 with only a message (no error field) exactly
for the two pre-checks, unparseable form entries and a missing image; and
500 with a message and an error field for every other failure — including
model validation failures raised by the pre-save hook, which reach the
outer catch. -/
theorem C8_amended_route_envelope (i : Route.Input) :
    ((Route.POST i).status = 201 ∨ (Route.POST i).status = 400 ∨
      (Route.POST i).status = 500) ∧
    ((Route.POST i).status = 201 →
      (Route.POST i).message = "Event created successfully" ∧
      (Route.POST i).err = none ∧ ∃ ev, (Route.POST i).event = some ev) ∧
    ((Route.POST i).status = 400 →
      (Route.POST i).err = none ∧ (Route.POST i).event = none) ∧
    ((Route.POST i).status = 500 →
      (Route.POST i).message = "Event Creation Failed" ∧
      ∃ e, (Route.POST i).err = some e) ∧
    (∀ e u, i.create = .error e → i.connect = .ok () → i.formData = .ok () →
      i.entriesOk = true → i.hasImage = true → i.upload = .ok u →
      (Route.POST i).status = 500 ∧ (Route.POST i).err = some e) := by
  obtain ⟨c, f, en, im, up, cr⟩ := i
  cases c <;> cases f <;> cases en <;> cases im <;> cases up <;> cases cr <;>
    simp [Route.POST]

/-- Witness for the amended claim C8 at a concrete input. -/
theorem C8_witness :
    (Route.POST ⟨.ok (), .ok (), true, true, .ok ("u"), .error ("boom")⟩).status = 500 ∧
    (Route.POST ⟨.ok (), .ok (), true, true, .ok ("u"), .error ("boom")⟩).err =
      some ("boom") :=
  (C8_amended_route_envelope
    ⟨.ok (), .ok (), true, true, .ok ("u"), .error ("boom")⟩).2.2.2.2
    ("boom") ("u") rfl rfl rfl rfl rfl rfl

/-! ## Claim C6 -/

/-- Claim C6.  Both date normalizers fail with the validation error on an
unparseable date (a NaN time value from the host date parser), and on a
parseable one they store exactly the UTC calendar day of the parsed
instant — the day number is the floor of the epoch milliseconds over
86400000, so any two instants in the same UTC day, whatever their
wall-clock time, store the same date string. -/
theorem C6_date_utc_day (parsed : Option Int) :
    (parsed = none →
      EventModel.normalizeDate parsed = .error .invalid ∧
      Part004.normalizeDateToIso parsed = .error .invalid) ∧
    (∀ t, parsed = some t →
      EventModel.normalizeDate parsed = .ok (isoDateOfDays (t.fdiv 86400000))) ∧
    (∀ t1 t2, t1.fdiv 86400000 = t2.fdiv 86400000 →
      EventModel.normalizeDate (some t1) = EventModel.normalizeDate (some t2) ∧
      Part004.normalizeDateToIso (some t1) = Part004.normalizeDateToIso (some t2)) := by
  refine ⟨?_, ?_, ?_⟩
  · intro h; subst h; exact ⟨rfl, rfl⟩
  · intro t h; subst h; rfl
  · intro t1 t2 h
    exact ⟨by simp [EventModel.normalizeDate, h],
           by simp [Part004.normalizeDateToIso, h]⟩

/-- Witness for claim C6 at concrete inputs: midnight and the last
millisecond of 2025-12-28 UTC store the same date, and a failed parse is
rejected. -/
theorem C6_witness :
    EventModel.normalizeDate (some 1766880000000) = .ok ("2025-12-28") ∧
    EventModel.normalizeDate (some 1766966399999) =
      EventModel.normalizeDate (some 1766880000000) ∧
    EventModel.normalizeDate none = .error .invalid :=
  ⟨((C6_date_utc_day (some 1766880000000)).2.1 1766880000000 rfl).trans (by decide),
   ((C6_date_utc_day (some 1766880000000)).2.2 1766966399999 1766880000000 (by decide)).1,
   ((C6_date_utc_day none).1 rfl).1⟩

/-! ## Character and digit lemmas for the time normalizers -/

theorem digitChar10_facts (k : Nat) (hk : k ≤ 9) :
    isDigitC (digitChar10 k) = true ∧ digitValC (digitChar10 k) = k ∧
    isJsWs (digitChar10 k) = false ∧
    asciiLowerChar (digitChar10 k) = digitChar10 k := by
  interval_cases k <;> exact ⟨by decide, by decide, by decide, by decide⟩

theorem digitsToNat_two (a b : Nat) (ha : a ≤ 9) (hb : b ≤ 9) :
    digitsToNat [digitChar10 a, digitChar10 b] = 10 * a + b := by
  have va := (digitChar10_facts a ha).2.1
  have vb := (digitChar10_facts b hb).2.1
  simp [digitsToNat, va, vb]

theorem digitsToNat_one (a : Nat) (ha : a ≤ 9) :
    digitsToNat [digitChar10 a] = a := by
  have va := (digitChar10_facts a ha).2.1
  simp [digitsToNat, va]

theorem digitsToNat_pad2L (n : Nat) (h : n < 100) :
    digitsToNat (pad2L n) = n := by
  have := digitsToNat_two (n / 10) (n % 10) (by omega) (by omega)
  rw [pad2L, this]
  omega

theorem takeDigits_digits (cs : List Char) :
    ∀ c ∈ (takeDigits cs).1, isDigitC c = true := by
  induction cs with
  | nil => intro c hc; simp [takeDigits] at hc
  | cons a as ih =>
    intro c hc
    by_cases ha : isDigitC a = true
    · simp [takeDigits, ha] at hc
      rcases hc with hc | hc
      · rw [hc]; exact ha
      · exact ih c hc
    · simp [takeDigits, ha] at hc

theorem takeDigits_append (ds r : List Char)
    (hds : ∀ c ∈ ds, isDigitC c = true)
    (hr : ∀ c, r.head? = some c → isDigitC c = false) :
    takeDigits (ds ++ r) = (ds, r) := by
  induction ds with
  | nil =>
    cases r with
    | nil => rfl
    | cons c cs => simp [takeDigits, hr c rfl]
  | cons a as ih =>
    have ha := hds a (by simp)
    have ih' := ih (fun x hx => hds x (by simp [hx]))
    simp [takeDigits, ha, ih']

theorem digitsToNat_lt_100 (ds : List Char)
    (h : ∀ c ∈ ds, isDigitC c = true) (hl : ds.length ≤ 2) :
    digitsToNat ds < 100 := by
  match ds with
  | [] => simp [digitsToNat]
  | [a] =>
    have ha := h a (by simp)
    simp [isDigitC] at ha
    simp [digitsToNat, digitValC]
    omega
  | [a, b] =>
    have ha := h a (by simp)
    have hb := h b (by simp)
    simp [isDigitC] at ha hb
    simp [digitsToNat, digitValC]
    omega
  | _ :: _ :: _ :: _ => simp at hl

theorem jsTrimL_id (l : List Char)
    (h1 : match l with | [] => True | c :: _ => isJsWs c = false)
    (h2 : match l.reverse with | [] => True | c :: _ => isJsWs c = false) :
    jsTrimL l = l := by
  unfold jsTrimL
  have e1 : l.dropWhile isJsWs = l := by
    cases l with
    | nil => rfl
    | cons c cs => simp [List.dropWhile_cons, h1]
  rw [e1]
  have e2 : l.reverse.dropWhile isJsWs = l.reverse := by
    cases hrev : l.reverse with
    | nil => rfl
    | cons c cs =>
      rw [hrev] at h2
      simp [List.dropWhile_cons, h2]
  rw [e2, List.reverse_reverse]

theorem asciiLowerL_id (l : List Char)
    (h : ∀ c ∈ l, asciiLowerChar c = c) : asciiLowerL l = l := by
  induction l with
  | nil => rfl
  | cons c cs ih =>
    simp only [asciiLowerL, List.map_cons]
    rw [h c (by simp)]
    have := ih (fun x hx => h x (by simp [hx]))
    simpa [asciiLowerL] using this

theorem toList_mk (l : List Char) : (String.mk l).toList = l := rfl

theorem pad2L_length (n : Nat) : (pad2L n).length = 2 := rfl

theorem render24_toList (hh mm : Nat) :
    (render24 hh mm).toList = pad2L hh ++ ':' :: pad2L mm := rfl

theorem render24_data (hh mm : Nat) :
    (render24 hh mm).data = pad2L hh ++ ':' :: pad2L mm := rfl

theorem pad2L_ne_nil (n : Nat) : pad2L n ≠ [] := by simp [pad2L]

theorem pad2L_digits (n : Nat) (h : n < 100) :
    ∀ c ∈ pad2L n, isDigitC c = true := by
  intro c hc
  simp [pad2L] at hc
  rcases hc with h1 | h1 <;> rw [h1]
  · exact (digitChar10_facts (n / 10) (by omega)).1
  · exact (digitChar10_facts (n % 10) (by omega)).1

theorem render24_clean (hh mm : Nat) (hh100 : hh < 100) (mm100 : mm < 100) :
    jsTrimL (pad2L hh ++ ':' :: pad2L mm) = pad2L hh ++ ':' :: pad2L mm ∧
    asciiLowerL (pad2L hh ++ ':' :: pad2L mm) = pad2L hh ++ ':' :: pad2L mm := by
  have f1 := digitChar10_facts (hh / 10) (by omega)
  have f2 := digitChar10_facts (hh % 10) (by omega)
  have f3 := digitChar10_facts (mm / 10) (by omega)
  have f4 := digitChar10_facts (mm % 10) (by omega)
  constructor
  · apply jsTrimL_id
    · simp only [pad2L, List.cons_append]
      exact f1.2.2.1
    · have hrev : (pad2L hh ++ ':' :: pad2L mm).reverse =
          [digitChar10 (mm % 10), digitChar10 (mm / 10), ':',
           digitChar10 (hh % 10), digitChar10 (hh / 10)] := by
        simp [pad2L]
      rw [hrev]
      exact f4.2.2.1
  · apply asciiLowerL_id
    intro c hc
    simp [pad2L] at hc
    rcases hc with h1 | h1 | h1 | h1 | h1 <;> rw [h1]
    · exact f1.2.2.2
    · exact f2.2.2.2
    · decide
    · exact f3.2.2.2
    · exact f4.2.2.2

/-- The rendered HH:MM output of either normalizer is accepted again by
both normalizers and returned unchanged. -/
theorem normalizeTime_fix (hh mm : Nat) (h23 : hh ≤ 23) (m59 : mm ≤ 59) :
    EventModel.normalizeTime (render24 hh mm) = .ok (render24 hh mm) ∧
    Part004.normalizeTime (render24 hh mm) = .ok (render24 hh mm) := by
  have hh100 : hh < 100 := by omega
  have mm100 : mm < 100 := by omega
  have hcl := render24_clean hh mm hh100 mm100
  have hdh := pad2L_digits hh hh100
  have hdm := pad2L_digits mm mm100
  have t1 : takeDigits (pad2L hh ++ ':' :: pad2L mm) = (pad2L hh, ':' :: pad2L mm) :=
    takeDigits_append (pad2L hh) (':' :: pad2L mm) hdh
      (by intro c hc; simp at hc; subst hc; decide)
  have t2 : takeDigits (pad2L mm) = (pad2L mm, []) := by
    have := takeDigits_append (pad2L mm) [] hdm (by intro c hc; simp at hc)
    simpa using this
  have vh : digitsToNat (pad2L hh) = hh := digitsToNat_pad2L hh hh100
  have vm : digitsToNat (pad2L mm) = mm := digitsToNat_pad2L mm mm100
  have hgl : ¬(23 < hh ∨ 59 < mm) := by omega
  constructor
  · simp [EventModel.normalizeTime, EventModel.parseHMS, render24_data,
      String.toList, hcl.1, t1, t2, pad2L_length, pad2L_ne_nil, vh, vm, hgl]
  · simp [Part004.normalizeTime, Part004.parseHM, render24_data,
      String.toList, hcl.1, hcl.2, t1, t2, pad2L_length, pad2L_ne_nil, vh, vm, hgl]

/-- Every accepted input of normalizeTime in event.model.ts produces a
rendered in-range HH:MM string. -/
theorem normalizeTime_ok_shape_lib (s t : String)
    (h : EventModel.normalizeTime s = .ok t) :
    ∃ hh mm, hh ≤ 23 ∧ mm ≤ 59 ∧ t = render24 hh mm := by
  unfold EventModel.normalizeTime at h
  cases hp : EventModel.parseHMS (jsTrimL s.toList) with
  | none => rw [hp] at h; simp at h
  | some pr =>
    obtain ⟨hh, mm⟩ := pr
    rw [hp] at h
    simp only [] at h
    by_cases hg : 23 < hh ∨ 59 < mm
    · rw [if_pos hg] at h; simp at h
    · rw [if_neg hg] at h
      simp at h
      exact ⟨hh, mm, by omega, by omega, h.symm⟩

/-- Every accepted input of normalizeTime in part_004 produces a rendered
in-range HH:MM string. -/
theorem normalizeTime_ok_shape_p4 (s t : String)
    (h : Part004.normalizeTime s = .ok t) :
    ∃ hh mm, hh ≤ 23 ∧ mm ≤ 59 ∧ t = render24 hh mm := by
  simp only [Part004.normalizeTime] at h
  cases hp : Part004.parseHM (asciiLowerL (jsTrimL s.toList)) with
  | some pr =>
    obtain ⟨hh, mm⟩ := pr
    rw [hp] at h
    simp only [] at h
    by_cases hg : 23 < hh ∨ 59 < mm
    · rw [if_pos hg] at h; simp at h
    · rw [if_neg hg] at h
      simp at h
      exact ⟨hh, mm, by omega, by omega, h.symm⟩
  | none =>
    rw [hp] at h
    simp only [] at h
    cases hq : Part004.parse12 (asciiLowerL (jsTrimL s.toList)) with
    | none => rw [hq] at h; simp at h
    | some pr =>
      obtain ⟨hh, mm, isPm⟩ := pr
      rw [hq] at h
      simp only [] at h
      by_cases hg : hh < 1 ∨ 12 < hh ∨ 59 < mm
      · rw [if_pos hg] at h; simp at h
      · rw [if_neg hg] at h
        by_cases h12 : isPm = true ∧ hh ≠ 12
        · rw [if_pos h12] at h
          simp at h
          exact ⟨hh + 12, mm, by omega, by omega, h.symm⟩
        · rw [if_neg h12] at h
          by_cases h0 : ¬(isPm = true) ∧ hh = 12
          · rw [if_pos h0] at h
            simp at h
            exact ⟨0, mm, by omega, by omega, h.symm⟩
          · rw [if_neg h0] at h
            simp at h
            exact ⟨hh, mm, by omega, by omega, h.symm⟩

theorem pad2L_spec (n : Nat) (h : n < 100) :
    ∀ c ∈ pad2L n, isDigitC c = true ∧ isJsWs c = false ∧ asciiLowerChar c = c := by
  intro c hc
  simp [pad2L] at hc
  rcases hc with h1 | h1 <;> rw [h1]
  · have f := digitChar10_facts (n / 10) (by omega)
    exact ⟨f.1, f.2.2.1, f.2.2.2⟩
  · have f := digitChar10_facts (n % 10) (by omega)
    exact ⟨f.1, f.2.2.1, f.2.2.2⟩

theorem mkHourL_spec (n : Nat) (h : n < 100) :
    (∀ c ∈ mkHourL n, isDigitC c = true ∧ isJsWs c = false ∧ asciiLowerChar c = c) ∧
    digitsToNat (mkHourL n) = n ∧ mkHourL n ≠ [] ∧ (mkHourL n).length ≤ 2 := by
  by_cases hn : n < 10
  · refine ⟨?_, ?_, ?_, ?_⟩
    · intro c hc
      simp [mkHourL, hn] at hc
      rw [hc]
      have f := digitChar10_facts n (by omega)
      exact ⟨f.1, f.2.2.1, f.2.2.2⟩
    · simp [mkHourL, hn, digitsToNat_one n (by omega)]
    · simp [mkHourL, hn]
    · simp [mkHourL, hn]
  · refine ⟨?_, ?_, ?_, ?_⟩
    · intro c hc
      simp [mkHourL, hn] at hc
      exact pad2L_spec n h c hc
    · simp [mkHourL, hn, digitsToNat_pad2L n h]
    · simp [mkHourL, hn, pad2L_ne_nil]
    · simp [mkHourL, hn, pad2L_length]

theorem jsTrimL_id_all (l : List Char) (h : ∀ c ∈ l, isJsWs c = false) :
    jsTrimL l = l := by
  apply jsTrimL_id
  · cases l with
    | nil => trivial
    | cons c cs => exact h c (by simp)
  · cases hr : l.reverse with
    | nil => trivial
    | cons c cs =>
      have hm : c ∈ l := by
        have h1 : c ∈ l.reverse := by rw [hr]; simp
        simpa using h1
      exact h c hm

theorem jsTrimL_id_bounds (a b : Char) (mid : List Char)
    (ha : isJsWs a = false) (hb : isJsWs b = false) :
    jsTrimL (a :: (mid ++ [b])) = a :: (mid ++ [b]) := by
  apply jsTrimL_id
  · exact ha
  · have hrev : (a :: (mid ++ [b])).reverse = b :: (mid.reverse ++ [a]) := by simp
    rw [hrev]
    exact hb

theorem parse_mkTime24 (hh mm : Nat) (hh100 : hh < 100) (mm100 : mm < 100) :
    Part004.parseHM (mkHourL hh ++ ':' :: pad2L mm) = some (hh, mm) ∧
    EventModel.parseHMS (mkHourL hh ++ ':' :: pad2L mm) = some (hh, mm) := by
  have hs := mkHourL_spec hh hh100
  have hdh : ∀ c ∈ mkHourL hh, isDigitC c = true := fun c hc => (hs.1 c hc).1
  have hdm : ∀ c ∈ pad2L mm, isDigitC c = true :=
    fun c hc => (pad2L_spec mm mm100 c hc).1
  have t1 : takeDigits (mkHourL hh ++ ':' :: pad2L mm) =
      (mkHourL hh, ':' :: pad2L mm) :=
    takeDigits_append (mkHourL hh) (':' :: pad2L mm) hdh
      (by intro c hc; simp at hc; subst hc; decide)
  have t2 : takeDigits (pad2L mm) = (pad2L mm, []) := by
    have := takeDigits_append (pad2L mm) [] hdm (by intro c hc; simp at hc)
    simpa using this
  have hln : ¬((mkHourL hh).length = 0 ∨ 2 < (mkHourL hh).length) := by
    have h1 := hs.2.2.1
    have h2 := hs.2.2.2
    rintro (h0 | h0)
    · exact h1 (List.length_eq_zero.mp h0)
    · omega
  constructor
  · simp [Part004.parseHM, t1, t2, hln, pad2L_length, hs.2.1, hs.2.2.1,
      hs.2.2.2, digitsToNat_pad2L mm mm100]
  · simp [EventModel.parseHMS, t1, t2, hln, pad2L_length, hs.2.1, hs.2.2.1,
      hs.2.2.2, digitsToNat_pad2L mm mm100]

theorem clean_mkTime24 (hh mm : Nat) (hh100 : hh < 100) (mm100 : mm < 100) :
    jsTrimL (mkHourL hh ++ ':' :: pad2L mm) = mkHourL hh ++ ':' :: pad2L mm ∧
    asciiLowerL (mkHourL hh ++ ':' :: pad2L mm) = mkHourL hh ++ ':' :: pad2L mm := by
  have hs := mkHourL_spec hh hh100
  constructor
  · apply jsTrimL_id_all
    intro c hc
    rcases List.mem_append.mp hc with h1 | h1
    · exact (hs.1 c h1).2.1
    · rcases List.mem_cons.mp h1 with h2 | h2
      · rw [h2]; decide
      · exact (pad2L_spec mm mm100 c h2).2.1
  · apply asciiLowerL_id
    intro c hc
    rcases List.mem_append.mp hc with h1 | h1
    · exact (hs.1 c h1).2.2
    · rcases List.mem_cons.mp h1 with h2 | h2
      · rw [h2]; decide
      · exact (pad2L_spec mm mm100 c h2).2.2

theorem normalize_mkTime24 (hh mm : Nat) (hh100 : hh < 100) (mm100 : mm < 100) :
    (¬(23 < hh ∨ 59 < mm) →
      Part004.normalizeTime (mkTime24 hh mm) = .ok (render24 hh mm) ∧
      EventModel.normalizeTime (mkTime24 hh mm) = .ok (render24 hh mm)) ∧
    ((23 < hh ∨ 59 < mm) →
      Part004.normalizeTime (mkTime24 hh mm) = .error .range24 ∧
      EventModel.normalizeTime (mkTime24 hh mm) = .error .range) := by
  have hcl := clean_mkTime24 hh mm hh100 mm100
  have hp := parse_mkTime24 hh mm hh100 mm100
  have hd1 : (mkTime24 hh mm).toList = mkHourL hh ++ ':' :: pad2L mm := rfl
  have hd2 : (mkTime24 hh mm).data = mkHourL hh ++ ':' :: pad2L mm := rfl
  constructor
  · intro hg
    constructor
    · simp [Part004.normalizeTime, hd1, hd2, hcl.1, hcl.2, hp.1, hg]
    · simp [EventModel.normalizeTime, hd1, hd2, hcl.1, hp.2, hg]
  · intro hg
    constructor
    · simp [Part004.normalizeTime, hd1, hd2, hcl.1, hcl.2, hp.1, hg]
    · simp [EventModel.normalizeTime, hd1, hd2, hcl.1, hp.2, hg]

theorem clean_mkTime12 (hh mm : Nat) (isPm : Bool)
    (hh100 : hh < 100) (mm100 : mm < 100) :
    jsTrimL (mkHourL hh ++ ':' ::
        (pad2L mm ++ [' ', if isPm then 'p' else 'a', 'm'])) =
      mkHourL hh ++ ':' :: (pad2L mm ++ [' ', if isPm then 'p' else 'a', 'm']) ∧
    asciiLowerL (mkHourL hh ++ ':' ::
        (pad2L mm ++ [' ', if isPm then 'p' else 'a', 'm'])) =
      mkHourL hh ++ ':' :: (pad2L mm ++ [' ', if isPm then 'p' else 'a', 'm']) := by
  have hs := mkHourL_spec hh hh100
  constructor
  · cases hmk : mkHourL hh with
    | nil => exact absurd hmk hs.2.2.1
    | cons c0 rest =>
      have hshape : rest ++ ':' ::
            (pad2L mm ++ [' ', if isPm then 'p' else 'a', 'm']) =
          (rest ++ ':' ::
            (pad2L mm ++ [' ', if isPm then 'p' else 'a'])) ++ ['m'] := by
        simp
      simp only [List.cons_append, hshape]
      refine jsTrimL_id_bounds c0 'm' _ ?_ (by decide)
      exact (hs.1 c0 (by rw [hmk]; simp)).2.1
  · apply asciiLowerL_id
    intro c hc
    rcases List.mem_append.mp hc with h1 | h1
    · exact (hs.1 c h1).2.2
    · rcases List.mem_cons.mp h1 with h2 | h2
      · rw [h2]; decide
      · rcases List.mem_append.mp h2 with h3 | h3
        · exact (pad2L_spec mm mm100 c h3).2.2
        · rcases List.mem_cons.mp h3 with h4 | h4
          · rw [h4]; decide
          · rcases List.mem_cons.mp h4 with h5 | h5
            · rw [h5]; cases isPm <;> decide
            · rcases List.mem_cons.mp h5 with h6 | h6
              · rw [h6]; decide
              · simp at h6

theorem parse_mkTime12 (hh mm : Nat) (isPm : Bool)
    (hh100 : hh < 100) (mm100 : mm < 100) :
    Part004.parseHM (mkHourL hh ++ ':' ::
        (pad2L mm ++ [' ', if isPm then 'p' else 'a', 'm'])) = none ∧
    Part004.parse12 (mkHourL hh ++ ':' ::
        (pad2L mm ++ [' ', if isPm then 'p' else 'a', 'm'])) =
      some (hh, mm, isPm) ∧
    EventModel.parseHMS (mkHourL hh ++ ':' ::
        (pad2L mm ++ [' ', if isPm then 'p' else 'a', 'm'])) = none := by
  have hs := mkHourL_spec hh hh100
  have hdh : ∀ c ∈ mkHourL hh, isDigitC c = true := fun c hc => (hs.1 c hc).1
  have hdm : ∀ c ∈ pad2L mm, isDigitC c = true :=
    fun c hc => (pad2L_spec mm mm100 c hc).1
  have t1 : takeDigits (mkHourL hh ++ ':' ::
        (pad2L mm ++ [' ', if isPm then 'p' else 'a', 'm'])) =
      (mkHourL hh, ':' :: (pad2L mm ++ [' ', if isPm then 'p' else 'a', 'm'])) :=
    takeDigits_append _ _ hdh (by intro c hc; simp at hc; subst hc; decide)
  have t2 : takeDigits (pad2L mm ++ [' ', if isPm then 'p' else 'a', 'm']) =
      (pad2L mm, [' ', if isPm then 'p' else 'a', 'm']) :=
    takeDigits_append _ _ hdm (by intro c hc; simp at hc; subst hc; decide)
  have hln : ¬((mkHourL hh).length = 0 ∨ 2 < (mkHourL hh).length) := by
    have h1 := hs.2.2.1
    have h2 := hs.2.2.2
    rintro (h0 | h0)
    · exact h1 (List.length_eq_zero.mp h0)
    · omega
  have hws : isJsWs ' ' = true := by decide
  have ha : isJsWs 'a' = false := by decide
  have hpp : isJsWs 'p' = false := by decide
  refine ⟨?_, ?_, ?_⟩
  · simp [Part004.parseHM, t1, t2, hln, pad2L_length, hs.2.2.1, hs.2.2.2]
  · cases isPm
    · have t1a : takeDigits (mkHourL hh ++ ':' :: (pad2L mm ++ [' ', 'a', 'm'])) =
          (mkHourL hh, ':' :: (pad2L mm ++ [' ', 'a', 'm'])) :=
        takeDigits_append _ _ hdh (by intro c hc; simp at hc; subst hc; decide)
      have t2a : takeDigits (pad2L mm ++ [' ', 'a', 'm']) =
          (pad2L mm, [' ', 'a', 'm']) :=
        takeDigits_append _ _ hdm (by intro c hc; simp at hc; subst hc; decide)
      simp [Part004.parse12, t1a, t2a, pad2L_length, hs.2.1, hs.2.2.1,
        hs.2.2.2, digitsToNat_pad2L mm mm100, List.dropWhile, hws, ha]
    · have t1p : takeDigits (mkHourL hh ++ ':' :: (pad2L mm ++ [' ', 'p', 'm'])) =
          (mkHourL hh, ':' :: (pad2L mm ++ [' ', 'p', 'm'])) :=
        takeDigits_append _ _ hdh (by intro c hc; simp at hc; subst hc; decide)
      have t2p : takeDigits (pad2L mm ++ [' ', 'p', 'm']) =
          (pad2L mm, [' ', 'p', 'm']) :=
        takeDigits_append _ _ hdm (by intro c hc; simp at hc; subst hc; decide)
      simp [Part004.parse12, t1p, t2p, pad2L_length, hs.2.1, hs.2.2.1,
        hs.2.2.2, digitsToNat_pad2L mm mm100, List.dropWhile, hws, hpp]
  · simp [EventModel.parseHMS, t1, t2, hln, pad2L_length, hs.2.2.1, hs.2.2.2]

theorem normalize_mkTime12 (hh mm : Nat) (isPm : Bool)
    (h1 : 1 ≤ hh) (h12 : hh ≤ 12) (m59 : mm ≤ 59) :
    Part004.normalizeTime (mkTime12 hh mm isPm) =
      .ok (render24 (to24 hh isPm) mm) ∧
    EventModel.normalizeTime (mkTime12 hh mm isPm) = .error .format := by
  have hh100 : hh < 100 := by omega
  have mm100 : mm < 100 := by omega
  have hcl := clean_mkTime12 hh mm isPm hh100 mm100
  have hp := parse_mkTime12 hh mm isPm hh100 mm100
  have hd1 : (mkTime12 hh mm isPm).toList =
      mkHourL hh ++ ':' :: (pad2L mm ++ [' ', if isPm then 'p' else 'a', 'm']) := rfl
  have hd2 : (mkTime12 hh mm isPm).data =
      mkHourL hh ++ ':' :: (pad2L mm ++ [' ', if isPm then 'p' else 'a', 'm']) := rfl
  have hg : ¬(hh = 0 ∨ 12 < hh ∨ 59 < mm) := by omega
  constructor
  · simp only [Part004.normalizeTime, hd1, hd2, hcl.1, hcl.2, hp.1, hp.2.1]
    simp [hg]
    cases isPm <;> by_cases he : hh = 12 <;> simp [to24, he]
  · simp [EventModel.normalizeTime, hd1, hd2, hcl.1, hp.2.2]

/-! ## Claim C2 -/

/-- Claim C2 counterexample.  The time normalizer of
src/database/event.model.ts rejects the valid 12 hour input with meridiem
instead of producing its 24 hour equivalent: the match fails and the
format error is thrown, so the claim that time normalization accepts both
forms is false for that revision.  The part_004 revision does accept it. -/
theorem C2_meridiem_rejected_counterexample :
    EventModel.normalizeTime ("2:30 pm") = .error .format ∧
    Part004.normalizeTime ("2:30 pm") = .ok ("14:30") := by
  decide

/-- Claim C2, amended.  The part_004 normalizeTime accepts both forms:
canonical 24 hour inputs are returned zero padded, out of range hours or
minutes are rejected with a range error, and every valid 12 hour input
with meridiem yields the equivalent 24 hour HH:MM, with 12:00 am mapping
to 00:00 and 12:00 pm to 12:00.  The event.model.ts normalizeTime accepts
only the 24 hour forms (with optional seconds) with the same range check
and rejects meridiem input with a format error. -/
theorem C2_amended_time_normalization :
    (∀ hh mm, hh ≤ 23 → mm ≤ 59 →
      Part004.normalizeTime (mkTime24 hh mm) = .ok (render24 hh mm) ∧
      EventModel.normalizeTime (mkTime24 hh mm) = .ok (render24 hh mm)) ∧
    (∀ hh mm, hh < 100 → mm < 100 → (23 < hh ∨ 59 < mm) →
      Part004.normalizeTime (mkTime24 hh mm) = .error .range24 ∧
      EventModel.normalizeTime (mkTime24 hh mm) = .error .range) ∧
    (∀ hh mm isPm, 1 ≤ hh → hh ≤ 12 → mm ≤ 59 →
      Part004.normalizeTime (mkTime12 hh mm isPm) =
        .ok (render24 (to24 hh isPm) mm) ∧
      EventModel.normalizeTime (mkTime12 hh mm isPm) = .error .format) ∧
    Part004.normalizeTime ("12:00 am") = .ok ("00:00") ∧
    Part004.normalizeTime ("12:00 pm") = .ok ("12:00") ∧
    EventModel.normalizeTime ("02:30:15") = .ok ("02:30") := by
  refine ⟨?_, ?_, ?_, by decide, by decide, by decide⟩
  · intro hh mm h1 h2
    exact (normalize_mkTime24 hh mm (by omega) (by omega)).1 (by omega)
  · intro hh mm h1 h2 hg
    exact (normalize_mkTime24 hh mm h1 h2).2 hg
  · intro hh mm isPm h1 h2 h3
    exact normalize_mkTime12 hh mm isPm h1 h2 h3

/-- Witness for the amended claim C2 at concrete inputs. -/
theorem C2_witness :
    Part004.normalizeTime (mkTime12 2 30 true) = .ok ("14:30") ∧
    EventModel.normalizeTime (mkTime24 14 5) = .ok ("14:05") ∧
    Part004.normalizeTime (mkTime24 25 0) = .error .range24 :=
  ⟨((C2_amended_time_normalization.2.2.1 2 30 true (by decide) (by decide)
      (by decide)).1).trans (by decide),
   ((C2_amended_time_normalization.1 14 5 (by decide) (by decide)).2).trans
      (by decide),
   (C2_amended_time_normalization.2.1 25 0 (by decide) (by decide)
      (by decide)).1⟩

/-! ## Claim C10 -/

/-- Claim C10.  Both time normalizers are idempotent on their outputs: any
accepted input yields a 24 hour HH:MM string that is accepted again and
returned unchanged (normalized times are fixed points). -/
theorem C10_time_normalization_idempotent (s t : String) :
    (EventModel.normalizeTime s = .ok t → EventModel.normalizeTime t = .ok t) ∧
    (Part004.normalizeTime s = .ok t → Part004.normalizeTime t = .ok t) := by
  constructor
  · intro h
    obtain ⟨hh, mm, h1, h2, rfl⟩ := normalizeTime_ok_shape_lib s t h
    exact (normalizeTime_fix hh mm h1 h2).1
  · intro h
    obtain ⟨hh, mm, h1, h2, rfl⟩ := normalizeTime_ok_shape_p4 s t h
    exact (normalizeTime_fix hh mm h1 h2).2

/-! ## Slug shape lemmas -/

theorem collapse_head : ∀ (t : List Char) (c : Char),
    ∃ r, collapseDashes (c :: t) = c :: r := by
  intro t
  induction t with
  | nil => intro c; exact ⟨[], rfl⟩
  | cons d t' ih =>
    intro c
    by_cases h : c = '-' ∧ d = '-'
    · obtain ⟨r, hr⟩ := ih d
      refine ⟨r, ?_⟩
      rw [show collapseDashes (c :: d :: t') = collapseDashes (d :: t') by
        simp [collapseDashes, h], hr, h.1, h.2]
    · exact ⟨collapseDashes (d :: t'), by simp [collapseDashes, h]⟩

theorem noDD_tail (c : Char) (t : List Char) (h : noDD (c :: t) = true) :
    noDD t = true := by
  cases t with
  | nil => rfl
  | cons d t' => simp [noDD] at h; exact h.2

theorem lastNotDash_tail (c : Char) (t : List Char)
    (h : lastNotDash (c :: t) = true) : lastNotDash t = true := by
  cases t with
  | nil => rfl
  | cons d t' => simpa [lastNotDash] using h

theorem noDD_collapse : ∀ (l : List Char), noDD (collapseDashes l) = true := by
  have H : ∀ n l, List.length l ≤ n → noDD (collapseDashes l) = true := by
    intro n
    induction n with
    | zero =>
      intro l hl
      have : l = [] := List.length_eq_zero.mp (by omega)
      subst this; rfl
    | succ n ih =>
      intro l hl
      match l with
      | [] => rfl
      | [c] => rfl
      | c :: d :: t =>
        by_cases h : c = '-' ∧ d = '-'
        · rw [show collapseDashes (c :: d :: t) = collapseDashes (d :: t) by
            simp [collapseDashes, h]]
          exact ih (d :: t) (by simp at hl ⊢; omega)
        · rw [show collapseDashes (c :: d :: t) = c :: collapseDashes (d :: t) by
            simp [collapseDashes, h]]
          obtain ⟨r, hr⟩ := collapse_head t d
          rw [hr]
          have hdr : noDD (d :: r) = true := by
            have := ih (d :: t) (by simp at hl ⊢; omega)
            rwa [hr] at this
          simp [noDD, hdr]
          tauto
  intro l
  exact H l.length l (le_refl _)

theorem collapse_subset : ∀ (l : List Char) (c : Char),
    c ∈ collapseDashes l → c ∈ l := by
  have H : ∀ n l (c : Char), List.length l ≤ n → c ∈ collapseDashes l → c ∈ l := by
    intro n
    induction n with
    | zero =>
      intro l c hl hc
      have : l = [] := List.length_eq_zero.mp (by omega)
      subst this; simpa [collapseDashes] using hc
    | succ n ih =>
      intro l c hl hc
      match l with
      | [] => simpa [collapseDashes] using hc
      | [a] => simpa [collapseDashes] using hc
      | a :: d :: t =>
        by_cases h : a = '-' ∧ d = '-'
        · rw [show collapseDashes (a :: d :: t) = collapseDashes (d :: t) by
            simp [collapseDashes, h]] at hc
          have := ih (d :: t) c (by simp at hl ⊢; omega) hc
          simp at this ⊢
          tauto
        · rw [show collapseDashes (a :: d :: t) = a :: collapseDashes (d :: t) by
            simp [collapseDashes, h]] at hc
          rcases List.mem_cons.mp hc with h1 | h1
          · simp [h1]
          · have := ih (d :: t) c (by simp at hl ⊢; omega) h1
            simp at this ⊢
            tauto
  intro l c hc
  exact H l.length l c (le_refl _) hc

theorem dropWhile_subset (p : Char → Bool) :
    ∀ (l : List Char) (c : Char), c ∈ l.dropWhile p → c ∈ l := by
  intro l
  induction l with
  | nil => intro c hc; simpa using hc
  | cons a t ih =>
    intro c hc
    by_cases h : p a = true
    · rw [List.dropWhile_cons, if_pos h] at hc
      exact List.mem_cons_of_mem a (ih c hc)
    · rw [List.dropWhile_cons, if_neg h] at hc
      exact hc

theorem noDD_dropWhile (p : Char → Bool) :
    ∀ (l : List Char), noDD l = true → noDD (l.dropWhile p) = true := by
  intro l
  induction l with
  | nil => intro h; exact h
  | cons a t ih =>
    intro h
    by_cases hp : p a = true
    · rw [List.dropWhile_cons, if_pos hp]
      exact ih (noDD_tail a t h)
    · rw [List.dropWhile_cons, if_neg hp]
      exact h

theorem headNotDash_dropWhile :
    ∀ (l : List Char), headNotDash (l.dropWhile (fun c => c == '-')) = true := by
  intro l
  induction l with
  | nil => rfl
  | cons a t ih =>
    by_cases hp : (a == '-') = true
    · rw [List.dropWhile_cons, if_pos hp]
      exact ih
    · rw [List.dropWhile_cons, if_neg hp]
      simpa [headNotDash] using hp

theorem dropEnd_head : ∀ (cs : List Char) (d : Char) (r : List Char),
    dropEndDash cs = d :: r → ∃ cs', cs = d :: cs' := by
  intro cs
  cases cs with
  | nil => intro d r h; simp [dropEndDash] at h
  | cons c0 cs' =>
    intro d r h
    cases hr : dropEndDash cs' with
    | nil =>
      rw [dropEndDash, hr] at h
      by_cases hc : c0 = '-'
      · simp [hc] at h
      · simp [hc] at h
        exact ⟨cs', by rw [h.1]⟩
    | cons e r' =>
      rw [dropEndDash, hr] at h
      have : c0 = d := by
        have := congrArg (fun l => List.head? l) h
        simpa using this
      exact ⟨cs', by rw [this]⟩

theorem dropEnd_subset : ∀ (l : List Char) (c : Char),
    c ∈ dropEndDash l → c ∈ l := by
  intro l
  induction l with
  | nil => intro c hc; simpa [dropEndDash] using hc
  | cons a t ih =>
    intro c hc
    cases hr : dropEndDash t with
    | nil =>
      rw [dropEndDash, hr] at hc
      by_cases ha : a = '-'
      · simp [ha] at hc
      · simp [ha] at hc
        simp [hc]
    | cons e r' =>
      rw [dropEndDash, hr] at hc
      rcases List.mem_cons.mp hc with h1 | h1
      · simp [h1]
      · exact List.mem_cons_of_mem a (ih c (by rw [hr]; exact h1))

theorem noDD_dropEnd : ∀ (l : List Char), noDD l = true →
    noDD (dropEndDash l) = true := by
  intro l
  induction l with
  | nil => intro h; exact h
  | cons a t ih =>
    intro h
    cases hr : dropEndDash t with
    | nil =>
      rw [dropEndDash, hr]
      by_cases ha : a = '-' <;> simp [ha, noDD]
    | cons d r =>
      rw [dropEndDash, hr]
      have hdr : noDD (d :: r) = true := by
        have := ih (noDD_tail a t h)
        rwa [hr] at this
      obtain ⟨t', ht'⟩ := dropEnd_head t d r hr
      have hfirst : ¬(a = '-' ∧ d = '-') := by
        rw [ht'] at h
        simp [noDD] at h
        intro hx
        exact absurd h.1 (by simp [hx.1, hx.2])
      simp [noDD, hdr]
      tauto

theorem lastNotDash_dropEnd : ∀ (l : List Char),
    lastNotDash (dropEndDash l) = true := by
  intro l
  induction l with
  | nil => rfl
  | cons a t ih =>
    cases hr : dropEndDash t with
    | nil =>
      rw [dropEndDash, hr]
      by_cases ha : a = '-' <;> simp [ha, lastNotDash]
    | cons d r =>
      rw [dropEndDash, hr]
      have := ih
      rw [hr] at this
      simpa [lastNotDash] using this

theorem headNotDash_dropEnd (l : List Char) (h : headNotDash l = true) :
    headNotDash (dropEndDash l) = true := by
  cases l with
  | nil => rfl
  | cons a t =>
    cases hr : dropEndDash t with
    | nil =>
      rw [dropEndDash, hr]
      by_cases ha : a = '-' <;> simp [ha, headNotDash]
    | cons d r =>
      rw [dropEndDash, hr]
      simpa [headNotDash] using h

theorem slugRun_false_of_inv : ∀ (n : Nat) (cs : List Char), cs.length ≤ n →
    (∀ c ∈ cs, isLowerAlnum c = true ∨ c = '-') → noDD cs = true →
    lastNotDash cs = true → slugRun false cs = true := by
  intro n
  induction n with
  | zero =>
    intro cs hlen _ _ _
    have : cs = [] := List.length_eq_zero.mp (by omega)
    subst this; rfl
  | succ n ih =>
    intro cs hlen halpha hnodd hlast
    match cs with
    | [] => rfl
    | c :: cs' =>
      rcases halpha c (by simp) with hA | hA
      · rw [show slugRun false (c :: cs') = slugRun false cs' by
          simp [slugRun, hA]]
        exact ih cs' (by simp at hlen; omega)
          (fun x hx => halpha x (by simp [hx]))
          (noDD_tail c cs' hnodd) (lastNotDash_tail c cs' hlast)
      · subst hA
        cases cs' with
        | nil => simp [lastNotDash] at hlast
        | cons d r =>
          have hd : isLowerAlnum d = true := by
            rcases halpha d (by simp) with h1 | h1
            · exact h1
            · exfalso
              subst h1
              simp [noDD] at hnodd
          have hdash : isLowerAlnum '-' = false := by decide
          rw [show slugRun false ('-' :: d :: r) = slugRun true (d :: r) by
            simp [slugRun, hdash]]
          rw [show slugRun true (d :: r) = slugRun false r by
            simp [slugRun, hd]]
          exact ih r (by simp at hlen; omega)
            (fun x hx => halpha x (by simp [hx]))
            (noDD_tail d r (noDD_tail '-' (d :: r) hnodd))
            (lastNotDash_tail d r (lastNotDash_tail '-' (d :: r) hlast))

theorem slugAccepts_of_inv (cs : List Char)
    (halpha : ∀ c ∈ cs, isLowerAlnum c = true ∨ c = '-')
    (hnodd : noDD cs = true) (hhead : headNotDash cs = true)
    (hlast : lastNotDash cs = true) :
    cs = [] ∨ slugAccepts cs = true := by
  cases cs with
  | nil => exact Or.inl rfl
  | cons c cs' =>
    right
    have hc : isLowerAlnum c = true := by
      rcases halpha c (by simp) with h1 | h1
      · exact h1
      · exfalso
        subst h1
        simp [headNotDash] at hhead
    rw [show slugAccepts (c :: cs') = (isLowerAlnum c && slugRun false cs') from rfl]
    rw [hc]
    simp only [Bool.true_and]
    exact slugRun_false_of_inv cs'.length cs' (le_refl _)
      (fun x hx => halpha x (by simp [hx]))
      (noDD_tail c cs' hnodd) (lastNotDash_tail c cs' hlast)

/-! ## Claim C4 -/

/-- Claim C4 counterexample.  The slug derived by slugify in
event.model.ts is not the result of the pipeline the claim describes:
slugify turns each run of characters outside lower case alphanumerics
into a hyphen, while the claimed pipeline deletes characters outside its
class, so the underscore title gives a-b against ab.  The generateSlug of
part_003 and part_004 also omits the final hyphen trim, so a title that
does not reduce to nothing yields x- which fails the claimed regex. -/
theorem C4_slug_pipeline_counterexample :
    EventModel.slugify ("a_b") = "a-b" ∧
    specSlugPipeline ("a_b") = "ab" ∧
    EventModel.slugify ("a_b") ≠ specSlugPipeline ("a_b") ∧
    Part004.generateSlug ("x -") = "x-" ∧
    slugAccepts (Part004.generateSlug ("x -")).toList = false ∧
    Part004.generateSlug ("x -") ≠ "" := by
  decide

/-- Claim C4, amended.  slugify of event.model.ts trims, lower cases,
replaces each maximal run of characters outside lower case alphanumerics
by a single hyphen, and strips leading and trailing hyphens; consequently
every slugify output matches the anchored regex of lower case
alphanumeric blocks separated by single hyphens, or is empty.
The generateSlug of part_003 and part_004 deletes invalid characters
instead and keeps boundary hyphens, so its outputs can violate the
regex. -/
theorem C4_amended_slug_regex (title : String) :
    EventModel.slugify title = "" ∨
    slugAccepts (EventModel.slugify title).toList = true := by
  have halpha0 : ∀ c ∈ (asciiLowerL (jsTrimL title.toList)).map
      (fun c => if isLowerAlnum c then c else '-'),
      isLowerAlnum c = true ∨ c = '-' := by
    intro c hc
    rcases List.mem_map.mp hc with ⟨a, _, ha⟩
    by_cases h : isLowerAlnum a = true
    · left; rw [← ha]; simpa [h] using h
    · right; rw [← ha]; simp [h]
  have hnodd1 := noDD_collapse ((asciiLowerL (jsTrimL title.toList)).map
      (fun c => if isLowerAlnum c then c else '-'))
  have halpha1 : ∀ c ∈ collapseDashes ((asciiLowerL (jsTrimL title.toList)).map
      (fun c => if isLowerAlnum c then c else '-')),
      isLowerAlnum c = true ∨ c = '-' :=
    fun c hc => halpha0 c (collapse_subset _ c hc)
  have halpha2 : ∀ c ∈ (collapseDashes ((asciiLowerL (jsTrimL title.toList)).map
      (fun c => if isLowerAlnum c then c else '-'))).dropWhile (fun c => c == '-'),
      isLowerAlnum c = true ∨ c = '-' :=
    fun c hc => halpha1 c (dropWhile_subset _ _ c hc)
  have hnodd2 := noDD_dropWhile (fun c => c == '-') _ hnodd1
  have hhead2 := headNotDash_dropWhile (collapseDashes
      ((asciiLowerL (jsTrimL title.toList)).map
        (fun c => if isLowerAlnum c then c else '-')))
  have halpha3 : ∀ c ∈ EventModel.slugifyL title.toList,
      isLowerAlnum c = true ∨ c = '-' :=
    fun c hc => halpha2 c (dropEnd_subset _ c hc)
  have hnodd3 : noDD (EventModel.slugifyL title.toList) = true :=
    noDD_dropEnd _ hnodd2
  have hhead3 : headNotDash (EventModel.slugifyL title.toList) = true :=
    headNotDash_dropEnd _ hhead2
  have hlast3 : lastNotDash (EventModel.slugifyL title.toList) = true :=
    lastNotDash_dropEnd _
  rcases slugAccepts_of_inv (EventModel.slugifyL title.toList)
      halpha3 hnodd3 hhead3 hlast3 with h | h
  · left
    show String.mk (EventModel.slugifyL title.toList) = ""
    rw [h]
  · right
    exact h

/-- Witness for claim C10 at concrete inputs. -/
theorem C10_witness :
    EventModel.normalizeTime ("09:05") = .ok ("09:05") ∧
    Part004.normalizeTime ("14:30") = .ok ("14:30") :=
  ⟨(C10_time_normalization_idempotent ("9:05") ("09:05")).1 (by decide),
   (C10_time_normalization_idempotent ("2:30 pm") ("14:30")).2 (by decide)⟩

end DevEvents
